import Mathlib

/-
Verification of the MMM-IsraelNews aggregation pipeline and icon cache.

The definitions below are shallow embeddings of the JavaScript sources:
  - node_helper.js        (getNews, scrapeHtmlNews)
  - icon-utils.js / the unnamed IconUtils module (isValidImageData,
    getMimeType, getFaviconPriority, parseHtmlForFavicon selection,
    downloadFileToBuffer, downloadAndCacheIcon, saveIconToCache,
    fileToDataUrl, validateAndCleanCache)

Buffers are lists of byte values (Nat), JavaScript strings are Lean strings,
Date values are abstracted by a parse function String to Option Int returning
a millisecond timestamp (none models an Invalid Date), and promise rejection
is modelled by Except.
-/

namespace IsraelNews

/-- Boolean test that the first list is an initial segment of the second,
modelling Buffer.slice(0, n).equals(sig) checks and String.startsWith. -/
def leadsWith [BEq α] : List α → List α → Bool
  | [], _ => true
  | _ :: _, [] => false
  | a :: as, b :: bs => a == b && leadsWith as bs

/-- Boolean test that the first list occurs contiguously inside the second,
modelling Buffer.indexOf(sig) being different from -1 and String.includes. -/
def containsSeq [BEq α] (needle : List α) : List α → Bool
  | [] => needle.isEmpty
  | a :: tl => leadsWith needle (a :: tl) || containsSeq needle tl

/-- JavaScript String.prototype.toLowerCase restricted to ASCII data. -/
def jsToLower (s : String) : String := ⟨s.data.map Char.toLower⟩

/-- JavaScript String.prototype.includes. -/
def jsIncludes (s pat : String) : Bool := containsSeq pat.data s.data

/-- JavaScript String.prototype.startsWith. -/
def jsStartsWith (s pat : String) : Bool := leadsWith pat.data s.data

/-- Concatenation of a list of byte chunks, modelling Array.prototype.flat
and repeated Buffer.concat. -/
def flat : List (List α) → List α
  | [] => []
  | l :: ls => l ++ flat ls

/-- PNG file signature, icon-utils.js line 139. -/
def pngSignature : List Nat := [0x89, 0x50, 0x4E, 0x47, 0x0D, 0x0A, 0x1A, 0x0A]

/-- GIF file signature, icon-utils.js line 140. -/
def gifSignature : List Nat := [0x47, 0x49, 0x46, 0x38]

/-- JPEG file signature, icon-utils.js line 141. -/
def jpegSignature : List Nat := [0xFF, 0xD8, 0xFF]

/-- ICO file signature, icon-utils.js line 142. -/
def icoSignature : List Nat := [0x00, 0x00, 0x01, 0x00]

/-- Embedding of IconUtils.isValidImageData (icon-utils.js lines 133-183):
empty buffers are rejected, then PNG, GIF, JPEG signatures are checked in
order, then the lenient ICO block (exact header or an embedded PNG signature,
requiring at least 6 bytes), and finally the URL-hint leniency accepting any
non-empty buffer whose lowercased URL contains .ico or favicon. -/
def isValidImageData (d : List Nat) (originalUrl : String) : Bool :=
  if d.length = 0 then false
  else if decide (8 ≤ d.length) && leadsWith pngSignature d then true
  else if decide (4 ≤ d.length) && leadsWith gifSignature d then true
  else if decide (3 ≤ d.length) && leadsWith jpegSignature d then true
  else if decide (6 ≤ d.length) &&
      (leadsWith icoSignature d || containsSeq pngSignature d) then true
  else if jsIncludes (jsToLower originalUrl) ".ico" ||
      jsIncludes (jsToLower originalUrl) "favicon" then true
  else false

/-- Embedding of IconUtils.getMimeType (icon-utils.js lines 1196-1214):
signature checks in order under a minimum length of 8 bytes, with image/png
as the default fallback. -/
def getMimeType (d : List Nat) : String :=
  if decide (8 ≤ d.length) then
    if leadsWith pngSignature d then "image/png"
    else if leadsWith gifSignature d then "image/gif"
    else if leadsWith jpegSignature d then "image/jpeg"
    else if leadsWith icoSignature d then "image/x-icon"
    else "image/png"
  else "image/png"

theorem leadsWith_append [BEq α] [LawfulBEq α] (sig rest : List α) :
    leadsWith sig (sig ++ rest) = true := by
  induction sig with
  | nil => rfl
  | cons a as ih => simp [leadsWith, ih]

/-- C5: for every source URL, the classifier applied to an empty buffer
reports invalid, even when the URL contains favicon or ends in .ico:
the empty-length check precedes the URL-hint leniency. -/
theorem emptyBuffer_invalid (url : String) : isValidImageData [] url = false := by
  simp [isValidImageData]

/-- C6: a buffer beginning with the PNG signature (8 bytes), the GIF
signature (4 bytes) or the JPEG signature (3 bytes) is accepted as a valid
image regardless of any trailing bytes; the checks occur in that order and
the first matching signature decides. -/
theorem signature_buffers_valid (rest : List Nat) (url : String) :
    isValidImageData (pngSignature ++ rest) url = true ∧
    isValidImageData (gifSignature ++ rest) url = true ∧
    isValidImageData (jpegSignature ++ rest) url = true := by
  refine ⟨?_, ?_, ?_⟩
  · have h := leadsWith_append pngSignature rest
    simp [isValidImageData, pngSignature, h, leadsWith]
  · have h := leadsWith_append gifSignature rest
    simp [isValidImageData, gifSignature, pngSignature, h, leadsWith]
  · have h := leadsWith_append jpegSignature rest
    simp [isValidImageData, jpegSignature, pngSignature, gifSignature, h, leadsWith]

/-- A news item as built by getNews and scrapeHtmlNews in node_helper.js:
all fields are the JavaScript strings of the emitted object, favicon is the
possibly absent favicon reference added in getNews. -/
structure NewsItem where
  title : String
  link : String
  pubDate : String
  description : String
  source : String
  favicon : Option String
deriving DecidableEq, Repr

/-- Millisecond timestamp of new Date(s): an empty string and every
unparsable string give an Invalid Date, modelled by none; pd abstracts the
JavaScript date parser on non-empty strings. -/
def parseDate (pd : String → Option Int) (s : String) : Option Int :=
  if s = "" then none else pd s

/-- Embedding of the time-filter predicate of getNews (node_helper.js lines
330-347): items with a falsy pubDate are kept, items whose parsed date is
NaN are kept, items dated strictly after now are dropped, and otherwise an
item is kept exactly when its date is at least the cutoff. -/
def keepByTime (pd : String → Option Int) (now cutoff : Int) (item : NewsItem) : Bool :=
  if item.pubDate = "" then true
  else
    match pd item.pubDate with
    | none => true
    | some t => if now < t then false else decide (cutoff ≤ t)

/-- The time-filtering step of getNews applied to the flattened item list. -/
def filterByTime (pd : String → Option Int) (now cutoff : Int)
    (items : List NewsItem) : List NewsItem :=
  items.filter (keepByTime pd now cutoff)

/-- C1: the time filter of getNews keeps every item whose publish date is
absent (empty) or unparsable, drops every parsable item dated strictly after
now, keeps a parsable non-future item exactly when its date is at least the
cutoff, and in particular keeps an item dated exactly at the cutoff. The six
item variables instantiate each case of the claim inside one fetched list. -/
theorem filterByTime_spec (pd : String → Option Int) (now cutoff tFut tIn tOut : Int)
    (items : List NewsItem) (iAbs iUnp iFut iIn iOut iBnd : NewsItem)
    (hA1 : iAbs ∈ items) (hA2 : iAbs.pubDate = "")
    (hU1 : iUnp ∈ items) (hU2 : iUnp.pubDate ≠ "") (hU3 : pd iUnp.pubDate = none)
    (hF1 : iFut ∈ items) (hF2 : iFut.pubDate ≠ "")
    (hF3 : pd iFut.pubDate = some tFut) (hF4 : now < tFut)
    (hI1 : iIn ∈ items) (hI2 : iIn.pubDate ≠ "")
    (hI3 : pd iIn.pubDate = some tIn) (hI4 : tIn ≤ now) (hI5 : cutoff ≤ tIn)
    (hO1 : iOut ∈ items) (hO2 : iOut.pubDate ≠ "")
    (hO3 : pd iOut.pubDate = some tOut) (hO4 : tOut ≤ now) (hO5 : tOut < cutoff)
    (hB1 : iBnd ∈ items) (hB2 : iBnd.pubDate ≠ "")
    (hB3 : pd iBnd.pubDate = some cutoff) (hB4 : cutoff ≤ now) :
    iAbs ∈ filterByTime pd now cutoff items ∧
    iUnp ∈ filterByTime pd now cutoff items ∧
    iFut ∉ filterByTime pd now cutoff items ∧
    iIn ∈ filterByTime pd now cutoff items ∧
    iOut ∉ filterByTime pd now cutoff items ∧
    iBnd ∈ filterByTime pd now cutoff items := by
  refine ⟨?_, ?_, ?_, ?_, ?_, ?_⟩
  · exact List.mem_filter.2 ⟨hA1, by simp [keepByTime, hA2]⟩
  · exact List.mem_filter.2 ⟨hU1, by simp [keepByTime, hU2, hU3]⟩
  · intro hmem
    have := (List.mem_filter.1 hmem).2
    simp [keepByTime, hF2, hF3, hF4] at this
  · refine List.mem_filter.2 ⟨hI1, ?_⟩
    simp [keepByTime, hI2, hI3, hI5]
    omega
  · intro hmem
    have := (List.mem_filter.1 hmem).2
    simp [keepByTime, hO2, hO3] at this
    omega
  · refine List.mem_filter.2 ⟨hB1, ?_⟩
    simp [keepByTime, hB2, hB3]
    omega

/-- A date parser used by concrete witnesses. -/
def pdWitness : String → Option Int :=
  fun s =>
    if s = "F" then some 200
    else if s = "I" then some 80
    else if s = "O" then some 10
    else if s = "B" then some 50
    else none

/-- A news item with a given publish date, used by concrete witnesses. -/
def mkDated (s : String) : NewsItem :=
  { title := "t", link := "l", pubDate := s, description := "d",
    source := "u", favicon := none }

/-- Witness for C1 at a concrete list: now = 100, cutoff = 50, with an
absent date, an unparsable date, a future date 200, an in-window date 80,
an out-of-window date 10, and a boundary date 50. -/
theorem filterByTime_spec_witness :
    mkDated "" ∈ filterByTime pdWitness 100 50
      [mkDated "", mkDated "X", mkDated "F", mkDated "I", mkDated "O", mkDated "B"] ∧
    mkDated "X" ∈ filterByTime pdWitness 100 50
      [mkDated "", mkDated "X", mkDated "F", mkDated "I", mkDated "O", mkDated "B"] ∧
    mkDated "F" ∉ filterByTime pdWitness 100 50
      [mkDated "", mkDated "X", mkDated "F", mkDated "I", mkDated "O", mkDated "B"] ∧
    mkDated "I" ∈ filterByTime pdWitness 100 50
      [mkDated "", mkDated "X", mkDated "F", mkDated "I", mkDated "O", mkDated "B"] ∧
    mkDated "O" ∉ filterByTime pdWitness 100 50
      [mkDated "", mkDated "X", mkDated "F", mkDated "I", mkDated "O", mkDated "B"] ∧
    mkDated "B" ∈ filterByTime pdWitness 100 50
      [mkDated "", mkDated "X", mkDated "F", mkDated "I", mkDated "O", mkDated "B"] :=
  filterByTime_spec pdWitness 100 50 200 80 10
    [mkDated "", mkDated "X", mkDated "F", mkDated "I", mkDated "O", mkDated "B"]
    (mkDated "") (mkDated "X") (mkDated "F") (mkDated "I") (mkDated "O") (mkDated "B")
    (by decide) (by decide)
    (by decide) (by decide) (by decide)
    (by decide) (by decide) (by decide) (by decide)
    (by decide) (by decide) (by decide) (by decide) (by decide)
    (by decide) (by decide) (by decide) (by decide) (by decide)
    (by decide) (by decide) (by decide) (by decide)

/-- A per-source fetch outcome recovered by the catch handlers of getNews
(node_helper.js lines 310-314) and scrapeHtmlNews (lines 242-246): a rejected
promise is mapped to the empty item list. -/
def recoverFetch (r : Except String (List NewsItem)) : List NewsItem :=
  match r with
  | .ok items => items
  | .error _ => []

/-- The fan-in of getNews: Promise.all over the per-source promises followed
by Array.prototype.flat. -/
def aggregateFetches (rs : List (Except String (List NewsItem))) : List NewsItem :=
  flat (rs.map recoverFetch)

/-- C2: a failing source contributes an empty item list and never aborts the
batch: removing a failed source from anywhere in the batch leaves the
aggregated result unchanged, and with two sources of which one fails, the
aggregate equals exactly the items of the successful source, in either
order. -/
theorem aggregateFetches_isolates_failures
    (pre post : List (Except String (List NewsItem))) (e : String)
    (items : List NewsItem) :
    aggregateFetches (pre ++ Except.error e :: post) = aggregateFetches (pre ++ post) ∧
    aggregateFetches [Except.ok items, Except.error e] = items ∧
    aggregateFetches [Except.error e, Except.ok items] = items := by
  refine ⟨?_, ?_, ?_⟩
  · induction pre with
    | nil => simp [aggregateFetches, flat, recoverFetch]
    | cons r rs ih => simp [aggregateFetches, flat, recoverFetch] at ih ⊢; rw [ih]
  · simp [aggregateFetches, flat, recoverFetch]
  · simp [aggregateFetches, flat, recoverFetch]

/-- Stable insertion of an element against a JavaScript comparator: the new
element is placed before the first list element x with cmp e x < 0, hence
after every earlier element the comparator does not order strictly after e.
This is the placement rule of the stable Array.prototype.sort. -/
def insertJs (cmp : α → α → Int) (e : α) : List α → List α
  | [] => [e]
  | x :: xs => if cmp e x < 0 then e :: x :: xs else x :: insertJs cmp e xs

/-- Embedding of the stable Array.prototype.sort with a comparator: each
element in turn is stably inserted into the sorted output built so far. -/
def jsSort (cmp : α → α → Int) (l : List α) : List α :=
  l.foldl (fun acc e => insertJs cmp e acc) []

theorem mem_insertJs (cmp : α → α → Int) (e : α) (l : List α) (a : α) :
    a ∈ insertJs cmp e l ↔ a = e ∨ a ∈ l := by
  induction l with
  | nil => simp [insertJs]
  | cons x xs ih =>
    by_cases hlt : cmp e x < 0
    · simp [insertJs, hlt]
    · simp [insertJs, hlt, ih]
      tauto

theorem insertJs_perm (cmp : α → α → Int) (e : α) (l : List α) :
    (insertJs cmp e l).Perm (e :: l) := by
  induction l with
  | nil => simp [insertJs]
  | cons x xs ih =>
    by_cases hlt : cmp e x < 0
    · simp [insertJs, hlt]
    · simp only [insertJs, hlt, if_false]
      exact ((ih.cons x).trans (List.Perm.swap e x xs))

theorem jsSortAux_perm (cmp : α → α → Int) (l acc : List α) :
    (l.foldl (fun acc e => insertJs cmp e acc) acc).Perm (acc ++ l) := by
  induction l generalizing acc with
  | nil => simp
  | cons e tl ih =>
    have h1 := ih (insertJs cmp e acc)
    have h2 : (insertJs cmp e acc ++ tl).Perm (acc ++ e :: tl) := by
      refine ((insertJs_perm cmp e acc).append_right tl).trans ?_
      exact List.perm_middle.symm
    exact (List.foldl_cons _ _ ▸ h1.trans h2)

theorem jsSort_perm (cmp : α → α → Int) (l : List α) : (jsSort cmp l).Perm l := by
  simpa using jsSortAux_perm cmp l []

theorem pairwise_insertJs (cmp : α → α → Int) (R : α → α → Prop)
    (hc : ∀ a b, cmp a b < 0 → R a b) (hc2 : ∀ a b, ¬ cmp a b < 0 → R b a)
    (ht : ∀ a b c, R a b → R b c → R a c)
    (e : α) (l : List α) (h : l.Pairwise R) : (insertJs cmp e l).Pairwise R := by
  induction l with
  | nil => simp [insertJs]
  | cons x xs ih =>
    rcases List.pairwise_cons.1 h with ⟨hx, hxs⟩
    by_cases hlt : cmp e x < 0
    · simp only [insertJs, hlt, if_true]
      refine List.pairwise_cons.2 ⟨?_, h⟩
      intro y hy
      rcases List.mem_cons.1 hy with rfl | hy
      · exact hc e y hlt
      · exact ht e x y (hc e x hlt) (hx y hy)
    · simp only [insertJs, hlt, if_false]
      refine List.pairwise_cons.2 ⟨?_, ih hxs⟩
      intro y hy
      rcases (mem_insertJs cmp e xs y).1 hy with rfl | hy
      · exact hc2 y x hlt
      · exact hx y hy

theorem pairwise_jsSortAux (cmp : α → α → Int) (R : α → α → Prop)
    (hc : ∀ a b, cmp a b < 0 → R a b) (hc2 : ∀ a b, ¬ cmp a b < 0 → R b a)
    (ht : ∀ a b c, R a b → R b c → R a c)
    (l acc : List α) (hacc : acc.Pairwise R) :
    (l.foldl (fun acc e => insertJs cmp e acc) acc).Pairwise R := by
  induction l generalizing acc with
  | nil => simpa using hacc
  | cons e tl ih =>
    exact ih (insertJs cmp e acc) (pairwise_insertJs cmp R hc hc2 ht e acc hacc)

theorem pairwise_jsSort (cmp : α → α → Int) (R : α → α → Prop)
    (hc : ∀ a b, cmp a b < 0 → R a b) (hc2 : ∀ a b, ¬ cmp a b < 0 → R b a)
    (ht : ∀ a b c, R a b → R b c → R a c)
    (l : List α) : (jsSort cmp l).Pairwise R :=
  pairwise_jsSortAux cmp R hc hc2 ht l [] (by simp)

theorem filter_insertJs_neg (cmp : α → α → Int) (q : α → Bool) (e : α)
    (hq : q e = false) (l : List α) :
    (insertJs cmp e l).filter q = l.filter q := by
  induction l with
  | nil => simp [insertJs, hq]
  | cons x xs ih =>
    by_cases hlt : cmp e x < 0
    · simp [insertJs, hlt, List.filter_cons, hq]
    · simp only [insertJs, hlt, if_false]
      simp [List.filter_cons, ih]

theorem filter_insertJs_key {κ : Type} [DecidableEq κ]
    (cmp : α → α → Int) (R : α → α → Prop) (key : α → κ) (e : α)
    (h1 : ∀ x, key x = key e → ¬ cmp e x < 0)
    (h2 : ∀ x y, cmp e x < 0 → R x y → key y ≠ key e)
    (l : List α) (hl : l.Pairwise R) :
    (insertJs cmp e l).filter (fun a => decide (key a = key e)) =
      l.filter (fun a => decide (key a = key e)) ++ [e] := by
  induction l with
  | nil => simp [insertJs]
  | cons x xs ih =>
    rcases List.pairwise_cons.1 hl with ⟨hx, hxs⟩
    by_cases hlt : cmp e x < 0
    · simp only [insertJs, hlt, if_true]
      have hnilx : ∀ a ∈ x :: xs, ¬ (key a = key e) := by
        intro a ha
        rcases List.mem_cons.1 ha with rfl | ha
        · intro hk; exact h1 a hk hlt
        · exact h2 x a hlt (hx a ha)
      have hnil : (x :: xs).filter (fun a => decide (key a = key e)) = [] := by
        refine List.filter_eq_nil_iff.2 ?_
        intro a ha
        simpa using hnilx a ha
      rw [List.filter_cons, hnil]
      simp
    · simp only [insertJs, hlt, if_false]
      rw [List.filter_cons, List.filter_cons, ih hxs]
      by_cases hkx : key x = key e
      · simp [hkx]
      · simp [hkx]

theorem filter_jsSortAux_key {κ : Type} [DecidableEq κ]
    (cmp : α → α → Int) (R : α → α → Prop) (key : α → κ) (k : κ)
    (hc : ∀ a b, cmp a b < 0 → R a b) (hc2 : ∀ a b, ¬ cmp a b < 0 → R b a)
    (ht : ∀ a b c, R a b → R b c → R a c)
    (H1 : ∀ e x, key x = key e → ¬ cmp e x < 0)
    (H2 : ∀ e x y, cmp e x < 0 → R x y → key y ≠ key e)
    (l acc : List α) (hacc : acc.Pairwise R) :
    (l.foldl (fun acc e => insertJs cmp e acc) acc).filter (fun a => decide (key a = k)) =
      acc.filter (fun a => decide (key a = k)) ++ l.filter (fun a => decide (key a = k)) := by
  induction l generalizing acc with
  | nil => simp
  | cons e tl ih =>
    have hstep := ih (insertJs cmp e acc) (pairwise_insertJs cmp R hc hc2 ht e acc hacc)
    rw [List.foldl_cons, hstep, List.filter_cons]
    by_cases hk : key e = k
    · subst hk
      rw [filter_insertJs_key cmp R key e (H1 e) (H2 e) acc hacc]
      simp [List.append_assoc]
    · have hq : (fun a => decide (key a = k)) e = false := by simpa using hk
      rw [filter_insertJs_neg cmp _ e hq acc]
      simp [hk]

theorem filter_jsSort_key {κ : Type} [DecidableEq κ]
    (cmp : α → α → Int) (R : α → α → Prop) (key : α → κ) (k : κ)
    (hc : ∀ a b, cmp a b < 0 → R a b) (hc2 : ∀ a b, ¬ cmp a b < 0 → R b a)
    (ht : ∀ a b c, R a b → R b c → R a c)
    (H1 : ∀ e x, key x = key e → ¬ cmp e x < 0)
    (H2 : ∀ e x y, cmp e x < 0 → R x y → key y ≠ key e)
    (l : List α) :
    (jsSort cmp l).filter (fun a => decide (key a = k)) =
      l.filter (fun a => decide (key a = k)) := by
  simpa using filter_jsSortAux_key cmp R key k hc hc2 ht H1 H2 l [] (by simp)

/-- Embedding of the sort comparator of getNews (node_helper.js lines
354-360): an unparsable first date returns 1, then an unparsable second date
returns -1, otherwise dateB minus dateA for descending order. -/
def compareNews (pd : String → Option Int) (a b : NewsItem) : Int :=
  match parseDate pd a.pubDate with
  | none => 1
  | some ta =>
    match parseDate pd b.pubDate with
    | none => -1
    | some tb => tb - ta

/-- The intended order of the emitted list: parsable dates descending, with
every unparsable-date item after every parsable-date item. -/
def newsLE (pd : String → Option Int) (a b : NewsItem) : Prop :=
  match parseDate pd a.pubDate, parseDate pd b.pubDate with
  | _, none => True
  | none, some _ => False
  | some ta, some tb => tb ≤ ta

/-- The sorting step of getNews on the filtered item list. -/
def sortNews (pd : String → Option Int) (l : List NewsItem) : List NewsItem :=
  jsSort (compareNews pd) l

theorem newsLE_of_cmp_lt (pd : String → Option Int) (a b : NewsItem)
    (h : compareNews pd a b < 0) : newsLE pd a b := by
  cases ha : parseDate pd a.pubDate with
  | none => simp only [compareNews, ha] at h; omega
  | some ta =>
    cases hb : parseDate pd b.pubDate with
    | none => simp only [newsLE, ha, hb]
    | some tb =>
      simp only [compareNews, ha, hb] at h
      simp only [newsLE, ha, hb]
      omega

theorem newsLE_of_cmp_ge (pd : String → Option Int) (a b : NewsItem)
    (h : ¬ compareNews pd a b < 0) : newsLE pd b a := by
  cases ha : parseDate pd a.pubDate with
  | none => simp only [newsLE, ha]
  | some ta =>
    cases hb : parseDate pd b.pubDate with
    | none => simp only [compareNews, ha, hb] at h; omega
    | some tb =>
      simp only [compareNews, ha, hb] at h
      simp only [newsLE, ha, hb]
      omega

theorem newsLE_trans (pd : String → Option Int) (a b c : NewsItem)
    (hab : newsLE pd a b) (hbc : newsLE pd b c) : newsLE pd a c := by
  cases hc : parseDate pd c.pubDate with
  | none => simp only [newsLE, hc]
  | some tc =>
    cases hb : parseDate pd b.pubDate with
    | none => simp only [newsLE, hb, hc] at hbc
    | some tb =>
      cases ha : parseDate pd a.pubDate with
      | none => simp only [newsLE, ha, hb] at hab
      | some ta =>
        simp only [newsLE, ha, hb, hc] at hab hbc ⊢
        omega

theorem newsKey_H1 (pd : String → Option Int) (e x : NewsItem)
    (hk : parseDate pd x.pubDate = parseDate pd e.pubDate) :
    ¬ compareNews pd e x < 0 := by
  cases he : parseDate pd e.pubDate with
  | none => simp only [compareNews, he]; omega
  | some te =>
    rw [he] at hk
    simp only [compareNews, he, hk]
    omega

theorem newsKey_H2 (pd : String → Option Int) (e x y : NewsItem)
    (hlt : compareNews pd e x < 0) (hxy : newsLE pd x y) :
    parseDate pd y.pubDate ≠ parseDate pd e.pubDate := by
  cases he : parseDate pd e.pubDate with
  | none => simp only [compareNews, he] at hlt; omega
  | some te =>
    cases hx : parseDate pd x.pubDate with
    | none =>
      cases hy : parseDate pd y.pubDate with
      | none => simp
      | some ty => simp only [newsLE, hx, hy] at hxy
    | some tx =>
      simp only [compareNews, he, hx] at hlt
      cases hy : parseDate pd y.pubDate with
      | none => simp
      | some ty =>
        simp only [newsLE, hx, hy] at hxy
        intro hcon
        rw [Option.some_inj] at hcon
        omega

/-- C3: the final sort of getNews is a stable sort by publish date, newest
first: the output is a permutation of the input, it is pairwise ordered with
parsable dates descending and every unparsable-date item after every
parsable-date item (hence unparsable-date items all sit at the end), and for
every date key the subsequence of items carrying that key, including the
unparsable key none, is exactly the corresponding subsequence of the input
(stability). -/
theorem sortNews_spec (pd : String → Option Int) (l : List NewsItem) :
    (sortNews pd l).Perm l ∧
    (sortNews pd l).Pairwise (newsLE pd) ∧
    (sortNews pd l).Pairwise
      (fun a b => parseDate pd a.pubDate = none → parseDate pd b.pubDate = none) ∧
    ∀ k : Option Int,
      (sortNews pd l).filter (fun a => decide (parseDate pd a.pubDate = k)) =
        l.filter (fun a => decide (parseDate pd a.pubDate = k)) := by
  have hpw : (sortNews pd l).Pairwise (newsLE pd) :=
    pairwise_jsSort (compareNews pd) (newsLE pd)
      (newsLE_of_cmp_lt pd) (newsLE_of_cmp_ge pd) (newsLE_trans pd) l
  refine ⟨jsSort_perm (compareNews pd) l, hpw, ?_, ?_⟩
  · refine hpw.imp ?_
    intro a b hab ha
    unfold newsLE at hab
    rw [ha] at hab
    cases hb : parseDate pd b.pubDate with
    | none => rfl
    | some tb => rw [hb] at hab; exact hab.elim
  · intro k
    exact filter_jsSort_key (compareNews pd) (newsLE pd)
      (fun a => parseDate pd a.pubDate) k
      (newsLE_of_cmp_lt pd) (newsLE_of_cmp_ge pd) (newsLE_trans pd)
      (newsKey_H1 pd) (newsKey_H2 pd) l

/-- Embedding of IconUtils.getFaviconPriority (icon-utils.js lines 474-507):
substring checks on the lowercased URL, in source order, lower is better. -/
def getFaviconPriority (url : String) : Nat :=
  let u := jsToLower url
  if jsIncludes u "favicon" then 1
  else if jsIncludes u "shortcut" then 2
  else if jsIncludes u "apple-touch-icon" then 3
  else if jsIncludes u ".ico" then 4
  else if jsIncludes u ".png" then
    if jsIncludes u "16" || jsIncludes u "32" || jsIncludes u "small" then 5 else 6
  else if jsIncludes u ".svg" then 7
  else if jsIncludes u ".jpg" || jsIncludes u ".jpeg" then 8
  else if jsIncludes u "og" || jsIncludes u "logo" || jsIncludes u "brand" then 9
  else 10

/-- The candidate comparator of parseHtmlForFavicon (icon-utils.js line 456):
a.priority - b.priority. -/
def cmpFavicon (a b : String) : Int :=
  (getFaviconPriority a : Int) - (getFaviconPriority b : Int)

/-- The selection step of parseHtmlForFavicon (icon-utils.js lines 455-461):
sort the found candidates by priority and return the first one. -/
def selectFavicon (foundIcons : List String) : Option String :=
  (jsSort cmpFavicon foundIcons).head?

theorem cmpFavicon_lt (a b : String) (h : cmpFavicon a b < 0) :
    getFaviconPriority a ≤ getFaviconPriority b := by
  unfold cmpFavicon at h
  omega

theorem cmpFavicon_ge (a b : String) (h : ¬ cmpFavicon a b < 0) :
    getFaviconPriority b ≤ getFaviconPriority a := by
  unfold cmpFavicon at h
  omega

/-- C7: whenever the favicon resolver has a non-empty candidate list it
returns some candidate, and the returned candidate is one of the candidates
and carries a minimal numeric priority as computed by getFaviconPriority
(substring checks in source order: favicon, shortcut, apple-touch-icon,
.ico, small PNG, PNG, SVG, JPEG, og or logo or brand, rest). -/
theorem selectFavicon_min (cands : List String) (u : String)
    (hne : cands ≠ []) (h : selectFavicon cands = some u) :
    (selectFavicon cands).isSome = true ∧ u ∈ cands ∧
    cands.all
      (fun v => decide (getFaviconPriority u ≤ getFaviconPriority v)) = true := by
  have hperm := jsSort_perm cmpFavicon cands
  have hpw : (jsSort cmpFavicon cands).Pairwise
      (fun a b => getFaviconPriority a ≤ getFaviconPriority b) :=
    pairwise_jsSort cmpFavicon _ cmpFavicon_lt cmpFavicon_ge
      (fun a b c hab hbc => le_trans hab hbc) cands
  refine ⟨by rw [h]; rfl, ?_, ?_⟩
  · have hu : u ∈ jsSort cmpFavicon cands := by
      unfold selectFavicon at h
      exact List.mem_of_mem_head? h
    exact hperm.mem_iff.1 hu
  · rw [List.all_eq_true]
    intro v hv
    have hv2 : v ∈ jsSort cmpFavicon cands := hperm.mem_iff.2 hv
    unfold selectFavicon at h
    cases hs : jsSort cmpFavicon cands with
    | nil => rw [hs] at h; simp at h
    | cons x rest =>
      rw [hs] at h
      simp only [List.head?] at h
      rw [Option.some_inj] at h
      subst h
      rw [hs] at hv2 hpw
      rcases List.mem_cons.1 hv2 with rfl | hv2
      · simp
      · have := (List.pairwise_cons.1 hpw).1 v hv2
        simpa using this

/-- Concrete favicon candidates for the C7 witness: a plain PNG URL and a
URL containing favicon. -/
def faviconCands : List String := ["https://x.co.il/x.png", "https://x.co.il/favicon"]

/-- Witness for C7: with a candidate containing only .png and a candidate
containing favicon, the resolver returns the favicon candidate, which has
the minimal priority of the two. -/
theorem selectFavicon_min_witness :
    (selectFavicon faviconCands).isSome = true ∧
    "https://x.co.il/favicon" ∈ faviconCands ∧
    faviconCands.all
      (fun v => decide (getFaviconPriority "https://x.co.il/favicon" ≤
        getFaviconPriority v)) = true :=
  selectFavicon_min faviconCands "https://x.co.il/favicon" (by decide) (by decide)

/-- The chunk-accumulation loop of IconUtils.downloadFileToBuffer
(icon-utils.js lines 718-733): each data event appends the chunk and adds
its length to the running total; as soon as the total exceeds 1 MiB the
request is destroyed and the promise resolves to null (none); the end event
resolves to the accumulated buffer. -/
def downloadLoop (chunks : List (List Nat)) (buf : List Nat) (total : Nat) :
    Option (List Nat) :=
  match chunks with
  | [] => some buf
  | c :: rest =>
    let buf2 := buf ++ c
    let total2 := total + c.length
    if 1024 * 1024 < total2 then none
    else downloadLoop rest buf2 total2

/-- Embedding of IconUtils.downloadFileToBuffer on a successful 200
response delivering the given chunk stream. -/
def downloadFileToBuffer (chunks : List (List Nat)) : Option (List Nat) :=
  downloadLoop chunks [] 0

theorem downloadLoop_spec (chunks : List (List Nat)) (buf : List Nat)
    (total : Nat) (htot : total ≤ 1024 * 1024) :
    downloadLoop chunks buf total =
      if total + (flat chunks).length ≤ 1024 * 1024 then some (buf ++ flat chunks)
      else none := by
  induction chunks generalizing buf total with
  | nil =>
    simp only [downloadLoop, flat]
    rw [if_pos (by simpa using htot)]
    simp
  | cons c rest ih =>
    simp only [downloadLoop, flat]
    by_cases hover : 1024 * 1024 < total + c.length
    · rw [if_pos hover]
      rw [if_neg (by simp; omega)]
    · rw [if_neg hover]
      rw [ih (buf ++ c) (total + c.length) (by omega)]
      simp only [List.length_append, List.append_assoc]
      by_cases hle : total + c.length + (flat rest).length ≤ 1024 * 1024
      · rw [if_pos hle, if_pos (by omega)]
      · rw [if_neg hle, if_neg (by omega)]

/-- C8: the icon download is bounded to 1 MiB: if the delivered bytes
exceed 1 MiB the download resolves to null, and any buffer the download
does return has length at most 1 MiB. -/
theorem downloadFileToBuffer_bounded (chunks : List (List Nat)) :
    (1024 * 1024 < (flat chunks).length → downloadFileToBuffer chunks = none) ∧
    (∀ buf, downloadFileToBuffer chunks = some buf →
      buf.length ≤ 1024 * 1024) := by
  have h := downloadLoop_spec chunks [] 0 (by omega)
  simp only [downloadFileToBuffer]
  rw [h]
  constructor
  · intro hover
    rw [if_neg (by omega)]
  · intro buf hbuf
    by_cases hle : 0 + (flat chunks).length ≤ 1024 * 1024
    · rw [if_pos hle] at hbuf
      rw [Option.some_inj] at hbuf
      subst hbuf
      simpa using hle
    · rw [if_neg hle] at hbuf
      exact absurd hbuf (by simp)

/-- Witness for C8: a stream of one chunk of 1 MiB plus one byte resolves
to null, and the returned buffer for a small stream is within the bound. -/
theorem downloadFileToBuffer_bounded_witness :
    downloadFileToBuffer [List.replicate (1024 * 1024 + 1) 0] = none ∧
    ([1, 2, 3] : List Nat).length ≤ 1024 * 1024 := by
  constructor
  · refine (downloadFileToBuffer_bounded [List.replicate (1024 * 1024 + 1) 0]).1 ?_
    show 1024 * 1024 < (List.replicate (1024 * 1024 + 1) 0 ++ flat []).length
    rw [show flat ([] : List (List Nat)) = [] from rfl, List.append_nil,
      List.length_replicate]
    omega
  · exact (downloadFileToBuffer_bounded [[1, 2, 3]]).2 [1, 2, 3] (by decide)

/-- Base64 alphabet used by Buffer.toString with base64 encoding. -/
def base64Table : List Char :=
  "ABCDEFGHIJKLMNOPQRSTUVWXYZabcdefghijklmnopqrstuvwxyz0123456789+/".data

/-- One base64 digit. -/
def b64Char (n : Nat) : Char := base64Table.getD n 'A'

/-- Base64 encoding of a byte list, modelling Buffer.toString base64. -/
def base64Encode : List Nat → List Char
  | [] => []
  | [a] => [b64Char (a / 4), b64Char (a % 4 * 16), Char.ofNat 61, Char.ofNat 61]
  | [a, b] => [b64Char (a / 4), b64Char (a % 4 * 16 + b / 16),
      b64Char (b % 16 * 4), Char.ofNat 61]
  | a :: b :: c :: rest =>
      b64Char (a / 4) :: b64Char (a % 4 * 16 + b / 16) ::
        b64Char (b % 16 * 4 + c / 64) :: b64Char (c % 64) :: base64Encode rest

/-- The data URL built by IconUtils.fileToDataUrl from validated bytes
(icon-utils.js lines 1178-1180). -/
def dataUrlOf (d : List Nat) : String :=
  "data:" ++ getMimeType d ++ ";base64," ++ ⟨base64Encode d⟩

/-- First value stored under a key in an association list, modelling both
the in-memory Map and lookups of files on disk. -/
def lookupA {β : Type} : List (String × β) → String → Option β
  | [], _ => none
  | (k, v) :: tl, q => if k = q then some v else lookupA tl q

/-- Removal of a key, modelling fs.unlinkSync and Map.delete. -/
def eraseA {β : Type} (l : List (String × β)) (q : String) : List (String × β) :=
  l.filter (fun kv => !(kv.1 == q))

/-- Overwrite of a key, modelling fs.writeFileSync and Map.set. -/
def setA {β : Type} (l : List (String × β)) (k : String) (v : β) :
    List (String × β) :=
  eraseA l k ++ [(k, v)]

/-- The state of the icon cache: the binary files in the temp directory and
the persisted index mapping a source URL to its cached file path. -/
structure CacheState where
  files : List (String × List Nat)
  index : List (String × String)
deriving Repr

/-- Embedding of IconUtils.validateAndCleanCache (icon-utils.js lines
1219-1257): every cache file whose bytes fail isValidImageData against its
file path is deleted. -/
def validateAndCleanCache (s : CacheState) : CacheState :=
  { s with files := s.files.filter (fun pd => isValidImageData pd.2 pd.1) }

/-- Embedding of IconUtils.saveIconToCache (icon-utils.js lines 108-125):
write the icon bytes under the deterministic cache path of the source URL
and record the path in the index. -/
def saveIconToCache (cachePath : String → String) (s : CacheState)
    (url : String) (iconData : List Nat) : CacheState × String :=
  let p := cachePath url
  ({ files := setA s.files p iconData, index := setA s.index url p }, p)

/-- Embedding of IconUtils.downloadAndCacheIcon (icon-utils.js lines
191-219) with the network download given as an argument: a failed or empty
download falls back to the icon URL, invalid bytes (validated against the
icon URL) fall back to the icon URL without persisting, and valid bytes are
persisted through saveIconToCache. -/
def downloadAndCacheIcon (cachePath : String → String) (s : CacheState)
    (iconUrl sourceUrl : String) (downloaded : Option (List Nat)) :
    CacheState × String :=
  match downloaded with
  | none => (s, iconUrl)
  | some data =>
    if data.length = 0 then (s, iconUrl)
    else if isValidImageData data iconUrl then
      saveIconToCache cachePath s sourceUrl data
    else (s, iconUrl)

/-- Embedding of IconUtils.fileToDataUrl (icon-utils.js lines 1153-1189):
a missing file reads as null, an empty file reads as null, bytes failing
validation against the file path are deleted and read as null, and valid
bytes become a data URL. -/
def fileToDataUrl (s : CacheState) (p : String) : CacheState × Option String :=
  match lookupA s.files p with
  | none => (s, none)
  | some d =>
    if d.length = 0 then (s, none)
    else if isValidImageData d p then (s, some (dataUrlOf d))
    else ({ s with files := eraseA s.files p }, none)

theorem lookupA_filter {β : Type} (q : String × β → Bool)
    (l : List (String × β)) (k : String) (v : β)
    (h : lookupA (l.filter q) k = some v) : q (k, v) = true := by
  induction l with
  | nil => simp [lookupA] at h
  | cons kv tl ih =>
    rcases kv with ⟨k0, v0⟩
    by_cases hq : q (k0, v0) = true
    · rw [List.filter_cons, if_pos hq] at h
      by_cases hk : k0 = k
      · subst hk
        simp [lookupA] at h
        subst h
        exact hq
      · simp only [lookupA, hk, if_false] at h
        exact ih h
    · rw [List.filter_cons, if_neg hq] at h
      exact ih h

theorem lookupA_eraseA {β : Type} (l : List (String × β)) (k : String) :
    lookupA (eraseA l k) k = none := by
  induction l with
  | nil => rfl
  | cons kv tl ih =>
    rcases kv with ⟨k0, v0⟩
    by_cases hk : k0 = k
    · simp only [eraseA, List.filter_cons, hk]
      simpa [eraseA] using ih
    · simp only [eraseA, List.filter_cons]
      rw [if_pos (by simpa using hk)]
      simpa [lookupA, hk, eraseA] using ih

/-- Cache path used by the C4 counterexample: the file name generated by
generateCacheFilename always ends in .png and contains no favicon or .ico
hint. -/
def cexCachePath : String → String := fun _ => "temp_icons/example_com.png"

/-- State reached from an empty cache by one downloadAndCacheIcon call in
which the downloaded bytes are the single byte 0x41 and the icon URL
contains favicon, so the URL-hint leniency accepts the bytes. -/
def cexState : CacheState :=
  (downloadAndCacheIcon cexCachePath ⟨[], []⟩
    "https://example.com/favicon" "https://example.com/rss" (some [0x41])).1

/-- Counterexample to C4: after a cache-miss save, the index references a
disk file whose bytes fail binary image validation as performed by the
startup sweep and the read path (against the file path): the single byte
0x41 was accepted only through the favicon URL hint of the download URL,
which the cache path does not carry. -/
theorem cache_invariant_counterexample :
    lookupA cexState.index "https://example.com/rss" =
      some "temp_icons/example_com.png" ∧
    lookupA cexState.files "temp_icons/example_com.png" = some [0x41] ∧
    isValidImageData [0x41] "temp_icons/example_com.png" = false := by
  refine ⟨by decide, by decide, by decide⟩

/-- C4 as amended: bytes are validated against the download URL before
being persisted on a miss and invalid downloads are never persisted; the
startup sweep deletes every cache file failing validation against its path,
so every surviving file validates; and a non-empty cached file found
invalid when read back is deleted and the read returns null. The global
invariant fails only because persist-time validation uses the download URL
while sweep and read validate against the file path. -/
theorem cache_validation_mechanisms
    (cachePath : String → String) (s0 s1 s2 : CacheState)
    (iconUrl srcUrl p1 p2 : String) (data dSwept dRead : List Nat)
    (hInvalid : isValidImageData data iconUrl = false)
    (hSwept : lookupA (validateAndCleanCache s1).files p1 = some dSwept)
    (hRead : lookupA s2.files p2 = some dRead)
    (hReadInvalid : isValidImageData dRead p2 = false)
    (hReadNonempty : dRead ≠ []) :
    downloadAndCacheIcon cachePath s0 iconUrl srcUrl (some data) = (s0, iconUrl) ∧
    isValidImageData dSwept p1 = true ∧
    (fileToDataUrl s2 p2).2 = none ∧
    lookupA (fileToDataUrl s2 p2).1.files p2 = none := by
  refine ⟨?_, ?_, ?_, ?_⟩
  · simp only [downloadAndCacheIcon]
    by_cases hz : data.length = 0
    · rw [if_pos hz]
    · rw [if_neg hz, if_neg (by simp [hInvalid])]
  · exact lookupA_filter _ s1.files p1 dSwept hSwept
  · simp only [fileToDataUrl, hRead]
    rw [if_neg (by simpa using hReadNonempty), if_neg (by simp [hReadInvalid])]
  · simp only [fileToDataUrl, hRead]
    rw [if_neg (by simpa using hReadNonempty), if_neg (by simp [hReadInvalid])]
    exact lookupA_eraseA s2.files p2

/-- Witness for the amended C4 at concrete states: an invalid download from
a URL without icon hints is not persisted, the sweep keeps a genuine PNG
file, and reading back an invalid cached byte deletes it and misses. -/
theorem cache_validation_mechanisms_witness :
    downloadAndCacheIcon cexCachePath ⟨[], []⟩ "https://example.com/icon"
      "https://example.com/rss" (some [0x41]) = (⟨[], []⟩, "https://example.com/icon") ∧
    isValidImageData pngSignature "temp_icons/a.png" = true ∧
    (fileToDataUrl ⟨[("temp_icons/b.png", [0x41])], []⟩ "temp_icons/b.png").2 = none ∧
    lookupA (fileToDataUrl ⟨[("temp_icons/b.png", [0x41])], []⟩
      "temp_icons/b.png").1.files "temp_icons/b.png" = none := by
  have h := cache_validation_mechanisms cexCachePath ⟨[], []⟩
    ⟨[("temp_icons/a.png", pngSignature)], []⟩ ⟨[("temp_icons/b.png", [0x41])], []⟩
    "https://example.com/icon" "https://example.com/rss"
    "temp_icons/a.png" "temp_icons/b.png" [0x41] pngSignature [0x41]
    (by decide) (by decide) (by decide) (by decide) (by decide)
  exact ⟨h.1, h.2.1, h.2.2.1, h.2.2.2⟩

/-- The data extracted from one element matched by the item selector in
scrapeHtmlNews: the trimmed title text, the href attribute of the selected
link element (none when no element matched or the attribute is missing),
and the trimmed date text of the date selector. -/
structure ScrapedElement where
  titleText : String
  hrefAttr : Option String
  dateText : String
deriving DecidableEq, Repr

/-- The link computation of scrapeHtmlNews (node_helper.js lines 192-210):
a missing href becomes the empty string, and a non-empty href not starting
with http is made absolute against the page origin, inserting a slash
unless the href already starts with one. -/
def extractLink (origin : String) (hrefAttr : Option String) : String :=
  let link := hrefAttr.getD ""
  if !(link == "") && !(jsStartsWith link "http") then
    origin ++ (if jsStartsWith link "/" then "" else "/") ++ link
  else link

/-- The item guard of scrapeHtmlNews (node_helper.js line 221): only items
with a truthy title of length strictly greater than 5 are pushed. -/
def keepElement (e : ScrapedElement) : Bool :=
  !(e.titleText == "") && decide (5 < e.titleText.length)

/-- The item object pushed by scrapeHtmlNews (node_helper.js lines 222-228):
the title doubles as the description, the link falls back to the page URL
when empty, and the date is the date-selector text when a date selector is
configured, otherwise the fetch-time ISO string. -/
def mkScrapedItem (url origin nowIso : String) (useDateSel : Bool)
    (e : ScrapedElement) : NewsItem :=
  let link := extractLink origin e.hrefAttr
  { title := e.titleText,
    link := if link = "" then url else link,
    pubDate := if useDateSel then e.dateText else nowIso,
    description := e.titleText,
    source := url,
    favicon := none }

/-- Embedding of the extraction loop of scrapeHtmlNews (node_helper.js
lines 181-240) on the matched elements of a fetched page. -/
def scrapeHtmlNews (url origin nowIso : String) (useDateSel : Bool)
    (elements : List ScrapedElement) : List NewsItem :=
  (elements.filter keepElement).map (mkScrapedItem url origin nowIso useDateSel)

theorem keepElement_of_long (e : ScrapedElement) (h : 5 < e.titleText.length) :
    keepElement e = true := by
  have hne : e.titleText ≠ "" := by
    intro hcon
    rw [hcon] at h
    simp at h
  simp [keepElement, hne, h]

theorem mem_scrapeHtmlNews (url origin nowIso : String) (useDateSel : Bool)
    (elements : List ScrapedElement) (e : ScrapedElement)
    (hmem : e ∈ elements) (hlen : 5 < e.titleText.length) :
    mkScrapedItem url origin nowIso useDateSel e ∈
      scrapeHtmlNews url origin nowIso useDateSel elements := by
  refine List.mem_map_of_mem _ ?_
  exact List.mem_filter.2 ⟨hmem, keepElement_of_long e hlen⟩

/-- Counterexample to C9: the title abcde has exactly 5 characters, which
the claim says is enough to be included, yet scrapeHtmlNews discards the
item because the source requires title.length strictly greater than 5. -/
theorem scrape_title_five_counterexample :
    ("abcde" : String).length = 5 ∧
    scrapeHtmlNews "https://s.il/p" "https://s.il" "2025-01-01T00:00:00.000Z" false
      [⟨"abcde", none, ""⟩] = [] := by
  exact ⟨by decide, by decide⟩

/-- C9 as amended: an extracted item is discarded exactly when its title is
empty or has at most 5 characters; an item whose title has strictly more
than 5 characters is emitted, and no emitted item carries a title of length
at most 5. -/
theorem scrape_title_filter (url origin nowIso : String) (useDateSel : Bool)
    (elements : List ScrapedElement) (e1 e2 : ScrapedElement)
    (h1mem : e1 ∈ elements) (h1len : 5 < e1.titleText.length)
    (h2mem : e2 ∈ elements) (h2len : e2.titleText.length ≤ 5) :
    mkScrapedItem url origin nowIso useDateSel e1 ∈
      scrapeHtmlNews url origin nowIso useDateSel elements ∧
    (scrapeHtmlNews url origin nowIso useDateSel elements).all
      (fun it => !(it.title == e2.titleText)) = true := by
  refine ⟨mem_scrapeHtmlNews url origin nowIso useDateSel elements e1 h1mem h1len, ?_⟩
  rw [List.all_eq_true]
  intro it hit
  rcases List.mem_map.1 hit with ⟨e, he, rfl⟩
  have hkeep := (List.mem_filter.1 he).2
  simp only [keepElement, Bool.and_eq_true, decide_eq_true_eq] at hkeep
  have htitle : (mkScrapedItem url origin nowIso useDateSel e).title = e.titleText := rfl
  rw [htitle]
  have hne : e.titleText ≠ e2.titleText := by
    intro hcon
    rw [hcon] at hkeep
    omega
  simp [hne]

/-- Elements used by the scrape witnesses: a six-character title and a
five-character title, both without an href. -/
def scrapeElems : List ScrapedElement := [⟨"abcdef", none, ""⟩, ⟨"abcde", none, ""⟩]

/-- Witness for the amended C9: the six-character title is emitted and no
emitted item carries the five-character title. -/
theorem scrape_title_filter_witness :
    mkScrapedItem "https://s.il/p" "https://s.il" "2025-01-01T00:00:00.000Z" false
        ⟨"abcdef", none, ""⟩ ∈
      scrapeHtmlNews "https://s.il/p" "https://s.il" "2025-01-01T00:00:00.000Z" false
        scrapeElems ∧
    (scrapeHtmlNews "https://s.il/p" "https://s.il" "2025-01-01T00:00:00.000Z" false
        scrapeElems).all (fun it => !(it.title == "abcde")) = true :=
  scrape_title_filter "https://s.il/p" "https://s.il" "2025-01-01T00:00:00.000Z" false
    scrapeElems ⟨"abcdef", none, ""⟩ ⟨"abcde", none, ""⟩
    (by decide) (by decide) (by decide) (by decide)

/-- C10: when link extraction finds no href (no matching element or an
empty attribute), the emitted item carries the source page URL as its link,
the item is indeed emitted when its title passes the filter, and for a
non-empty page URL the link of the emitted item is never empty. -/
theorem scrape_link_fallback (url origin nowIso : String) (useDateSel : Bool)
    (elements : List ScrapedElement) (e : ScrapedElement)
    (hmem : e ∈ elements) (hlen : 5 < e.titleText.length)
    (hhref : e.hrefAttr = none ∨ e.hrefAttr = some "")
    (hurl : url ≠ "") :
    (mkScrapedItem url origin nowIso useDateSel e).link = url ∧
    (mkScrapedItem url origin nowIso useDateSel e).link ≠ "" ∧
    mkScrapedItem url origin nowIso useDateSel e ∈
      scrapeHtmlNews url origin nowIso useDateSel elements := by
  have hlink : extractLink origin e.hrefAttr = "" := by
    rcases hhref with h | h <;> simp [extractLink, h]
  have heq : (mkScrapedItem url origin nowIso useDateSel e).link = url := by
    simp [mkScrapedItem, hlink]
  exact ⟨heq, by rw [heq]; exact hurl,
    mem_scrapeHtmlNews url origin nowIso useDateSel elements e hmem hlen⟩

/-- Witness for C10: the six-character element has no href, so its emitted
link is the page URL, which is non-empty. -/
theorem scrape_link_fallback_witness :
    (mkScrapedItem "https://s.il/p" "https://s.il" "2025-01-01T00:00:00.000Z" false
      ⟨"abcdef", none, ""⟩).link = "https://s.il/p" ∧
    (mkScrapedItem "https://s.il/p" "https://s.il" "2025-01-01T00:00:00.000Z" false
      ⟨"abcdef", none, ""⟩).link ≠ "" ∧
    mkScrapedItem "https://s.il/p" "https://s.il" "2025-01-01T00:00:00.000Z" false
        ⟨"abcdef", none, ""⟩ ∈
      scrapeHtmlNews "https://s.il/p" "https://s.il" "2025-01-01T00:00:00.000Z" false
        scrapeElems :=
  scrape_link_fallback "https://s.il/p" "https://s.il" "2025-01-01T00:00:00.000Z" false
    scrapeElems ⟨"abcdef", none, ""⟩
    (by decide) (by decide) (Or.inl rfl) (by decide)

end IsraelNews
